import Mathlib

/-!
Shallow embedding of the Budget_Calc core pipeline and proofs about it.

Embedded source files:
* `Yearly_Spending.py` — merchant normalizer (`clean_merchant_name`),
  category resolver (`map_category`), checking classifier
  (`classify_checking_transaction`) and their constant tables;
* `recurring.py` — `_get_longest_consecutive_run`,
  `detect_recurring_merchants`, `detect_subscription_changes`;
* `transaction_notes.py` — `generate_tx_key`, `add_tx_keys`.

Conventions: Python strings are `String` (ASCII case mapping), monetary
floats are exact rationals `ℚ`, pandas dataframes are lists of records.
Python dictionaries appearing as function inputs are association lists
read through `List.lookup` (keys unique by construction in the source).
-/

namespace BudgetCalc

/-! ### Python string built-ins used by the source -/

/-- Python `needle in hay` (substring containment) at the `List Char`
level: true when `needle` occurs contiguously in `hay`. -/
def containsSub (needle : List Char) : List Char → Bool
  | [] => needle.isEmpty
  | c :: t => needle.isPrefixOf (c :: t) || containsSub needle t

/-- Python `needle in hay` on strings. -/
def strContains (hay needle : String) : Bool :=
  containsSub needle.data hay.data

/-- Python `str.upper()` (ASCII letters). -/
def pyUpper (s : String) : String := ⟨s.data.map Char.toUpper⟩

/-- Python `str.lower()` (ASCII letters). -/
def pyLower (s : String) : String := ⟨s.data.map Char.toLower⟩

/-- Helper for `pyTitle`: the boolean records whether the previous
character was alphabetic. -/
def titleAux : Bool → List Char → List Char
  | _, [] => []
  | prevAlpha, c :: t =>
      (if c.isAlpha then (if prevAlpha then c.toLower else c.toUpper) else c)
        :: titleAux c.isAlpha t

/-- Python `str.title()` (ASCII): uppercase an alphabetic character that
follows a non-alphabetic one, lowercase the other alphabetic characters. -/
def pyTitle (s : String) : String := ⟨titleAux false s.data⟩

/-- Python `s.split(sep)[0]` for a non-empty separator: the part of the
list before the first occurrence of `sep` (the whole list when `sep`
does not occur). -/
def takeBeforeSub (sep : List Char) : List Char → List Char
  | [] => []
  | c :: t => if sep.isPrefixOf (c :: t) then [] else c :: takeBeforeSub sep t

/-- Python `" ".join(s.split())`: split on whitespace runs, drop empty
pieces, re-join with single spaces. -/
def collapseWhitespace (l : List Char) : List Char :=
  List.intercalate [' '] ((l.splitOnP (fun c => c.isWhitespace)).filter (fun p => !p.isEmpty))

/-- Stable insertion step for `sortLe`. -/
def insertLe {α : Type} (le : α → α → Bool) (x : α) : List α → List α
  | [] => [x]
  | y :: t => if le x y then x :: y :: t else y :: insertLe le x t

/-- Python `sorted(...)`: a stable sort with respect to `le` (insertion
sort; agrees with any stable sort, and the inputs sorted by the source
are duplicate-free). -/
def sortLe {α : Type} (le : α → α → Bool) : List α → List α
  | [] => []
  | x :: t => insertLe le x (sortLe le t)

/-! ### `Yearly_Spending.py`: constant tables -/

/-- Table `BUDGET_CATEGORIES` (`Yearly_Spending.py` lines 12-19, identical in
`config.py` lines 13-20): the fixed closed set of budget labels. -/
def BUDGET_CATEGORIES : List String := [
  "Home Electricity", "Home Water/Trash", "Home Furniture", "Internet",
  "Phone Bill", "HOA Bill", "Home Maintenance", "Car Registration",
  "Discord Subscription", "Spotify Subscription", "Amazon Prime Subscription",
  "Gym Membership", "Chase Sapphire Preferred Fee", "Costco Membership",
  "Groceries", "Gas", "Restaurants", "Health / Doctors", "Car Maintenance",
  "Pest control", "Landscaping", "Games", "Vacation", "Personal"]

/-- Table `BANK_CATEGORY_FALLBACK` (lines 24-32), as an association list in
insertion order. -/
def BANK_CATEGORY_FALLBACK : List (String × String) := [
  ("Food & Drink", "Restaurants"),
  ("Vehicle Services", "Gas"),
  ("Health & Wellness", "Health / Doctors"),
  ("Groceries", "Groceries"),
  ("Home", "Home Furniture"),
  ("Travel", "Vacation"),
  ("Automotive", "Car Maintenance")]

/-- Table `INCOME_KEYWORDS` (line 37). -/
def INCOME_KEYWORDS : List String := ["DIRECT DEP", "PAYROLL", "ACH CREDIT", "DEPOSIT"]

/-- Table `TRANSFER_KEYWORDS` (lines 38-41). -/
def TRANSFER_KEYWORDS : List String :=
  ["TRANSFER", "PAYMENT TO CHASE CARD", "ONLINE TRANSFER", "SAVE AS YOU GO", "ZELLE"]

/-! ### `Yearly_Spending.py`: `clean_merchant_name` (lines 145-172) -/

/-- The `keyword_map` dict of `clean_merchant_name` (lines 152-160), in
insertion order (iteration order is significant). -/
def KEYWORD_MAP : List (String × String) := [
  ("AMZN", "Amazon"), ("AMAZON", "Amazon"), ("UBER", "Uber"), ("LYFT", "Lyft"),
  ("STARBUCKS", "Starbucks"), ("TRADER JOE", "Trader Joes"), ("WHOLEFDS", "Whole Foods"),
  ("APPLE", "Apple"), ("NETFLIX", "Netflix"), ("SPOTIFY", "Spotify"),
  ("TARGET", "Target"), ("COSTCO", "Costco"), ("SHELL", "Shell"),
  ("CHEVRON", "Chevron"), ("IN-N-OUT", "In-N-Out"), ("QT ", "Qt"),
  ("ARCO", "Arco"), ("EOS FITNESS", "Eos Fitness"), ("DISCORD", "Discord"),
  ("COX", "Cox"), ("VERIZON", "Verizon"), ("SRP", "Srp")]

/-- One alternative of the processor regex
`^(SQ\s*\*|TST\s*\*|PY\s*\*|SP\s*\*|TOAST\s*\*)\s*` (line 168): literal
letters, then optional whitespace, then a literal star, then the trailing
optional whitespace; returns the remainder when it matches at the front. -/
def stripProcOne (lit l : List Char) : Option (List Char) :=
  if lit.isPrefixOf l then
    match (l.drop lit.length).dropWhile (fun c => c.isWhitespace) with
    | '*' :: r => some (r.dropWhile (fun c => c.isWhitespace))
    | _ => none
  else none

/-- Embeds `re.sub(r'^(SQ\s*\*|TST\s*\*|PY\s*\*|SP\s*\*|TOAST\s*\*)\s*', '', desc)`
(line 168). The five literal alternatives have pairwise distinct two-letter
fronts, so at most one can match; the match is removed. -/
def stripProcessors (l : List Char) : List Char :=
  match (["SQ", "TST", "PY", "SP", "TOAST"].map String.data).findSome?
      (fun lit => stripProcOne lit l) with
  | some r => r
  | none => l

/-- The no-keyword branch of `clean_merchant_name` (lines 167-172):
processor removal, truncation at the first `" - "`, truncation at the
first `" #"`, whitespace collapse and title-casing. The input is the
upper-cased description. Note the source applies no trailing-punctuation
stripping and no non-empty fallback after these steps. -/
def cleanMerchantGeneric (descU : List Char) : String :=
  pyTitle ⟨collapseWhitespace (takeBeforeSub " #".data
    (takeBeforeSub " - ".data (stripProcessors descU)))⟩

/-- Function `clean_merchant_name` (lines 145-172): upper-case, return the value of
the first keyword rule whose key is a substring, else the generic cleanup. -/
def cleanMerchantName (description : String) : String :=
  let desc := (pyUpper description).data
  match KEYWORD_MAP.find? (fun p => containsSub p.1.data desc) with
  | some p => p.2
  | none => cleanMerchantGeneric desc

/-! ### `Yearly_Spending.py`: `classify_checking_transaction` (lines 250-272) -/

/-- Function `classify_checking_transaction(description, amount)`: transfer
keywords first, then income keywords, then the sign of the raw amount
(`amount > 0` is income, otherwise expense). -/
def classifyCheckingTransaction (description : String) (amount : ℚ) : String :=
  let descUpper := pyUpper description
  if TRANSFER_KEYWORDS.any (fun kw => strContains descUpper kw) then "transfer"
  else if INCOME_KEYWORDS.any (fun kw => strContains descUpper kw) then "income"
  else if 0 < amount then "income"
  else "expense"

/-! ### `Yearly_Spending.py`: `map_category` (lines 285-325) -/

/-- Steps 4 and 5 of `map_category` (lines 318-325): generic keyword
fallback on the lower-cased merchant name, then the `'Personal'` default. -/
def mapCategoryKeywordFallback (descLower : String) : String :=
  if strContains descLower "gas" || strContains descLower "fuel" then "Gas"
  else if strContains descLower "food" || strContains descLower "restaurant" then "Restaurants"
  else "Personal"

/-- Function `map_category(row, category_map)` (lines 285-325). The row enters
through its `Clean_Description` and `Category` fields; `category_map` is
the override dictionary keyed by that pair. Cascade: exact override,
bank-category fallback, Bills & Utilities keyword groups, generic keyword
fallback, `'Personal'`. -/
def mapCategory (cleanDesc bankCat : String)
    (categoryMap : List ((String × String) × String)) : String :=
  match List.lookup (cleanDesc, bankCat) categoryMap with
  | some v => v
  | none =>
    let descLower := pyLower cleanDesc
    match List.lookup bankCat BANK_CATEGORY_FALLBACK with
    | some v => v
    | none =>
      if bankCat = "Bills & Utilities" then
        if ["electric", "srp", "power"].any (fun kw => strContains descLower kw) then
          "Home Electricity"
        else if ["water", "trash", "sewer", "city of"].any (fun kw => strContains descLower kw) then
          "Home Water/Trash"
        else if ["internet", "cox", "wifi"].any (fun kw => strContains descLower kw) then
          "Internet"
        else if ["phone", "verizon", "mobile", "t-mobile"].any (fun kw => strContains descLower kw) then
          "Phone Bill"
        else mapCategoryKeywordFallback descLower
      else mapCategoryKeywordFallback descLower

/-! ### `recurring.py`: `_get_longest_consecutive_run` (lines 10-22) -/

/-- The scan of `_get_longest_consecutive_run`: `prev` is the previous
element, `maxRun` / `curRun` the tracked maximum and current run length.
The maximum is updated only when the run extends, as in the source. -/
def runLoop (prev maxRun curRun : Nat) : List Nat → Nat
  | [] => maxRun
  | x :: rest =>
      if x = prev + 1 then runLoop x (max maxRun (curRun + 1)) (curRun + 1) rest
      else runLoop x maxRun 1 rest

/-- Function `_get_longest_consecutive_run(month_numbers)`: the length-zero and
length-one early return of the source is subsumed by starting the scan
with both counters at 1. -/
def getLongestConsecutiveRun : List Nat → Nat
  | [] => 0
  | x :: rest => runLoop x 1 1 rest

/-! ### `recurring.py`: `detect_recurring_merchants` (lines 25-91) -/

/-- Table `MONTH_NAMES` (lines 4-7); month numbers come from `dt.month` and are
always in 1..12, other inputs (a `KeyError` in the source) give `""`. -/
def monthName (n : Nat) : String :=
  match n with
  | 1 => "Jan" | 2 => "Feb" | 3 => "Mar" | 4 => "Apr" | 5 => "May" | 6 => "Jun"
  | 7 => "Jul" | 8 => "Aug" | 9 => "Sep" | 10 => "Oct" | 11 => "Nov" | 12 => "Dec"
  | _ => ""

/-- A transaction row as consumed by `recurring.py`: the date enters only
through `df['Transaction Date'].dt.month` (line 45), kept here as the
`month` field; `desc` is `Clean_Description`, `cat` is `Budget_Category`,
`amount` is `Net_Amount`. -/
structure Tx where
  month : Nat
  desc : String
  cat : String
  amount : ℚ
deriving DecidableEq, Repr

/-- A row of the result of `detect_recurring_merchants` (lines 80-89).
The source stores `Amount_Std = round(sqrt(variance), 2)`, an irrational
display value; the exact sample variance is kept instead (the detection
filter is expressed on it, see `recurringRecordFor`). -/
structure RecRecord where
  cleanDescription : String
  budgetCategory : String
  monthlyAmount : ℚ
  monthsActive : Nat
  consecutiveMonths : Nat
  activeRange : String
  annualProjected : ℚ
  amountVariance : ℚ
deriving DecidableEq, Repr

/-- Pandas sample standard deviation squared: `Series.std()` uses ddof 1,
`sqrt(sum (x - mean)^2 / (n - 1))`; a single data point gives `NaN`,
which line 66-67 of the source replaces by `0.0`, so the variance of a
list of length at most one is 0 here. -/
def sampleVar (xs : List ℚ) : ℚ :=
  if xs.length ≤ 1 then 0
  else
    let n : ℚ := xs.length
    let mean := xs.sum / n
    ((xs.map (fun x => (x - mean) ^ 2)).sum) / (n - 1)

/-- Pandas `Series.median()`: middle element of the sorted values, or the
average of the two middle elements for an even count (0 for an empty
series, unreachable in the source). -/
def medianQ (xs : List ℚ) : ℚ :=
  let s := sortLe (fun a b => decide (a ≤ b)) xs
  let n := s.length
  if n = 0 then 0
  else if n % 2 = 1 then s.getD (n / 2) 0
  else (s.getD (n / 2 - 1) 0 + s.getD (n / 2) 0) / 2

/-- Python `round(x)` for a rational: round half to even. -/
def roundHalfEven (q : ℚ) : ℤ :=
  let f := q.floor
  if q - (f : ℚ) < 1 / 2 then f
  else if 1 / 2 < q - (f : ℚ) then f + 1
  else if f % 2 = 0 then f else f + 1

/-- Python `round(x, 2)` modelled exactly over `ℚ` (binary floating-point
representation error is not modelled). -/
def round2 (q : ℚ) : ℚ := (roundHalfEven (q * 100) : ℚ) / 100

/-- Pandas `Series.mode().iloc[0]`: among the most frequent values, the smallest
in lexicographic order (pandas returns the modes sorted); `none` for an
empty series. -/
def modeMin (vals : List String) : Option String :=
  let counts := vals.dedup.map (fun v => (v, vals.count v))
  let maxC := (counts.map (fun p => p.2)).foldr max 0
  (sortLe (fun a b => decide (a ≤ b))
    ((counts.filter (fun p => p.2 == maxC)).map (fun p => p.1))).head?

/-- The rows of a given merchant (`df['Clean_Description'] == merchant`). -/
def merchantRows (df : List Tx) (m : String) : List Tx :=
  df.filter (fun t => t.desc == m)

/-- Value `months_list` (line 55): the sorted distinct month numbers of the
merchant (the `groupby` on `(Clean_Description, month_num)` makes the
month values of a merchant group unique). -/
def merchantMonths (df : List Tx) (m : String) : List Nat :=
  sortLe (fun a b => decide (a ≤ b)) (((merchantRows df m).map (fun t => t.month)).dedup)

/-- Value `monthly_total` per active month (lines 48-51): the sum of
`Net_Amount` over the merchant rows of that month, listed in
`months_list` order. -/
def monthlyTotals (df : List Tx) (m : String) : List ℚ :=
  (merchantMonths df m).map (fun mo =>
    (((merchantRows df m).filter (fun t => t.month == mo)).map (fun t => t.amount)).sum)

/-- Value `tx_count` per active month (lines 48-51). -/
def monthlyTxCounts (df : List Tx) (m : String) : List Nat :=
  (merchantMonths df m).map (fun mo =>
    ((merchantRows df m).filter (fun t => t.month == mo)).length)

/-- The body of the per-merchant loop of `detect_recurring_merchants`
(lines 54-89): `none` when a filter rejects the merchant. The standard
deviation filter `std > amount_tolerance` (line 68) is expressed without
the square root: over the reals, `sqrt v ≤ tol` holds exactly when
`0 ≤ tol` and `v ≤ tol ^ 2`. The frequency filter (line 72) compares the
mean transaction count per active month against the constant `2.0`. -/
def recurringRecordFor (df : List Tx) (tol : ℚ) (minConsec : Nat) (m : String) :
    Option RecRecord :=
  let months := merchantMonths df m
  if months.length < minConsec then none
  else if getLongestConsecutiveRun months < minConsec then none
  else if ¬ (0 ≤ tol ∧ sampleVar (monthlyTotals df m) ≤ tol ^ 2) then none
  else if 2 < ((monthlyTxCounts df m).sum : ℚ) / (months.length : ℚ) then none
  else
    let med := medianQ (monthlyTotals df m)
    some {
      cleanDescription := m
      budgetCategory := (modeMin ((merchantRows df m).map (fun t => t.cat))).getD "Personal"
      monthlyAmount := round2 med
      monthsActive := months.length
      consecutiveMonths := getLongestConsecutiveRun months
      activeRange := String.intercalate ", " (months.map monthName)
      annualProjected := round2 (med * 12)
      amountVariance := sampleVar (monthlyTotals df m) }

/-- Function `detect_recurring_merchants(df, amount_tolerance, min_consecutive_months)`
(lines 25-91). `monthly.groupby('Clean_Description')` iterates the
merchants in sorted order, so the result rows are in sorted merchant
order. The source function has no further parameter: the frequency bound
inside `recurringRecordFor` is the hard-coded `2.0` of line 72. -/
def detectRecurringMerchants (df : List Tx) (tol : ℚ) (minConsec : Nat) : List RecRecord :=
  (sortLe (fun a b => decide (a ≤ b)) ((df.map (fun t => t.desc)).dedup)).filterMap
    (recurringRecordFor df tol minConsec)

/-! ### `recurring.py`: `detect_subscription_changes` (lines 108-178) -/

/-- An alert dict (lines 144-176). The `detail` entry, a display string
formatting the amounts already present in the other fields, is not
modelled. -/
structure Alert where
  type : String
  merchant : String
  oldAmount : Option ℚ
  newAmount : Option ℚ
deriving DecidableEq, Repr

/-- Python `sorted(df['month_num'].unique())` (line 120): the distinct month
numbers of the input in ascending order. -/
def distinctMonths (df : List Tx) : List Nat :=
  sortLe (fun a b => decide (a ≤ b)) ((df.map (fun t => t.month)).dedup)

/-- The three comparison loops of `detect_subscription_changes`
(lines 139-178) on the two recurring sets: new subscriptions, cancelled
subscriptions, price changes beyond the tolerance. Python iterates the
name sets in unspecified set order; here each loop follows the record
order of its side (merchant names are unique within each side). -/
def buildAlerts (earlier recent : List RecRecord) (tol : ℚ) : List Alert :=
  let earlierNames := earlier.map (fun r => r.cleanDescription)
  let recentNames := recent.map (fun r => r.cleanDescription)
  ((recent.filter (fun r => !(earlierNames.contains r.cleanDescription))).map
      (fun r => { type := "new", merchant := r.cleanDescription,
                  oldAmount := none, newAmount := some r.monthlyAmount }))
  ++ ((earlier.filter (fun r => !(recentNames.contains r.cleanDescription))).map
      (fun r => { type := "cancelled", merchant := r.cleanDescription,
                  oldAmount := some r.monthlyAmount, newAmount := none }))
  ++ (earlier.filterMap (fun old =>
      match recent.find? (fun r => r.cleanDescription == old.cleanDescription) with
      | none => none
      | some recentRow =>
        let diff := recentRow.monthlyAmount - old.monthlyAmount
        if tol < |diff| then
          some { type := if 0 < diff then "price_increase" else "price_decrease",
                 merchant := old.cleanDescription,
                 oldAmount := some old.monthlyAmount,
                 newAmount := some recentRow.monthlyAmount }
        else none))

/-- Function `detect_subscription_changes(df, amount_tolerance)` (lines 108-178):
empty input or fewer than 3 distinct months give no alerts; otherwise the
sorted distinct months are split at the floor midpoint and the recurring
sets of the two restricted subsets (computed with the default
`min_consecutive_months = 2`) are compared. -/
def detectSubscriptionChanges (df : List Tx) (tol : ℚ) : List Alert :=
  if df.isEmpty then []
  else
    let months := distinctMonths df
    if months.length < 3 then []
    else
      let midpoint := months.length / 2
      let earlierMonths := months.take midpoint
      let recentMonths := months.drop midpoint
      buildAlerts
        (detectRecurringMerchants (df.filter (fun t => earlierMonths.contains t.month)) tol 2)
        (detectRecurringMerchants (df.filter (fun t => recentMonths.contains t.month)) tol 2)
        tol

/-! ### `transaction_notes.py`: `generate_tx_key` and `add_tx_keys` (lines 6-29) -/

/-- A transactions row as consumed by `add_tx_keys`. The fields hold the
string renderings that enter the key: `dateStr` is the
`strftime("%Y-%m-%d")` form of `Transaction Date` (or the date string
itself when already a string), `merchant` is `Clean_Description`, and
`amountStr` is the f-string rendering of `Net_Amount`. -/
structure NoteRow where
  dateStr : String
  merchant : String
  amountStr : String
deriving DecidableEq, Repr

/-- Function `generate_tx_key(date, merchant, amount)` (lines 6-12):
`f"{date_str}::{merchant}::{amount}"`. -/
def genTxKey (r : NoteRow) : String :=
  r.dateStr ++ "::" ++ r.merchant ++ "::" ++ r.amountStr

/-- Python `str(n)` for the non-negative occurrence counter: decimal
digits, most significant first. -/
def natToString (n : Nat) : String :=
  if n = 0 then "0" else ⟨((Nat.digits 10 n).map Nat.digitChar).reverse⟩

/-- The cumulative count `base_key.groupby(base_key).cumcount()`
(line 27) for the row `r` given the rows `seen` before it: the number of
earlier rows with the same base key. -/
def occCount (seen : List NoteRow) (r : NoteRow) : Nat :=
  (seen.filter (fun s => genTxKey s == genTxKey r)).length

/-- The row scan of `add_tx_keys`: each row receives
`base_key + "::" + str(occurrence)` (line 28). -/
def addTxKeysAux (seen : List NoteRow) : List NoteRow → List String
  | [] => []
  | r :: rest =>
      (genTxKey r ++ "::" ++ natToString (occCount seen r))
        :: addTxKeysAux (seen ++ [r]) rest

/-- Function `add_tx_keys(df)` (lines 15-29), restricted to the `_tx_key` column it
adds: the keys of the rows in order. -/
def addTxKeys (rows : List NoteRow) : List String := addTxKeysAux [] rows

/-! ### Specification-side definitions for the consecutive-run claim -/

/-- A list is a consecutive chain when every element exceeds its
predecessor by exactly 1 (claim C6 wording). -/
def isConsecChainB : List Nat → Bool
  | [] => true
  | [_] => true
  | a :: b :: t => (b == a + 1) && isConsecChainB (b :: t)

/-- The length of the longest contiguous sublist that is a consecutive
chain: contiguous sublists are the prefixes of the tails. -/
def longestConsecRunSpec (l : List Nat) : Nat :=
  ((l.tails.flatMap List.inits).filter isConsecChainB).foldr
    (fun r acc => max r.length acc) 0

/-- Proof helper: the length of the maximal chain continuing a run that
ended at value `prev`. -/
def contLen (prev : Nat) : List Nat → Nat
  | [] => 0
  | x :: t => if x = prev + 1 then 1 + contLen x t else 0

/-- Proof helper: the elements of that maximal continuing chain. -/
def chainTake (prev : Nat) : List Nat → List Nat
  | [] => []
  | x :: t => if x = prev + 1 then x :: chainTake x t else []

/-- Proof helper: the longest consecutive run length, as a structural
recursion (best over all starting positions). -/
def bestRun : List Nat → Nat
  | [] => 0
  | x :: t => max (1 + contLen x t) (bestRun t)

/-! ### Concrete datasets used by witnesses and counterexamples -/

/-- The high-frequency merchant of the repository test
`test_max_monthly_frequency_param`: 5 identical visits per month in
months 1, 2 and 3. -/
def freqShopDf : List Tx :=
  ([1, 1, 1, 1, 1, 2, 2, 2, 2, 2, 3, 3, 3, 3, 3]).map
    (fun mo => { month := mo, desc := "Frequent Shop", cat := "Personal", amount := 10 })

/-- Two active months only: below the change-detection window. -/
def twoMonthDf : List Tx :=
  [{ month := 1, desc := "Netflix", cat := "Personal", amount := 16 },
   { month := 2, desc := "Netflix", cat := "Personal", amount := 16 }]

/-- Exactly three active months with one recurring merchant. -/
def threeMonthDf : List Tx :=
  [{ month := 1, desc := "Netflix", cat := "Personal", amount := 16 },
   { month := 2, desc := "Netflix", cat := "Personal", amount := 16 },
   { month := 3, desc := "Netflix", cat := "Personal", amount := 16 }]

/-! ## Helper lemmas -/

/-- A successful association-list lookup returns a value paired with the
key somewhere in the list. -/
theorem lookup_pair_mem {α β : Type} [BEq α] [LawfulBEq α] {k : α} {v : β}
    {l : List (α × β)} (h : List.lookup k l = some v) : (k, v) ∈ l := by
  obtain ⟨l₁, l₂, rfl, -⟩ := List.lookup_eq_some_iff.mp h
  simp

/-! ## Claim C1: override precedence -/

/-- C1: for every canonical merchant `m`, bank category `b` and override
table `t` in which `(m, b)` is a key, `map_category` returns exactly the
value stored under that key, before any fallback rule is consulted. -/
theorem override_precedence (m b v : String) (t : List ((String × String) × String))
    (h : List.lookup (m, b) t = some v) : mapCategory m b t = v := by
  simp only [mapCategory, h]

/-- Witness for C1 at a concrete override table. -/
theorem override_precedence_witness :
    mapCategory "Amazon" "Shopping" [(("Amazon", "Shopping"), "Personal")] = "Personal" :=
  override_precedence _ _ _ _ (by decide)

/-! ## Claim C2: totality of category resolution (amended) -/

/-- Counterexample to C2 as stated: an override table may carry a value
outside `BUDGET_CATEGORIES`, and `map_category` returns it unchanged, so
the result is not a member of the fixed budget-category set for every
override table. -/
theorem resolve_range_counterexample :
    mapCategory "Mystery" "Odd" [(("Mystery", "Odd"), "Not A Budget Category")]
        = "Not A Budget Category" ∧
    "Not A Budget Category" ∉ BUDGET_CATEGORIES := by
  exact ⟨by decide, by decide⟩

/-- C2 amended: for every canonical merchant and bank category, and every
override table whose values all lie in `BUDGET_CATEGORIES`, `map_category`
returns a member of `BUDGET_CATEGORIES` (bottoming out at `"Personal"`). -/
theorem resolve_in_budget_categories (m b : String)
    (t : List ((String × String) × String))
    (ht : ∀ e ∈ t, e.2 ∈ BUDGET_CATEGORIES) :
    mapCategory m b t ∈ BUDGET_CATEGORIES := by
  unfold mapCategory
  cases hov : List.lookup (m, b) t with
  | some v => exact ht _ (lookup_pair_mem hov)
  | none =>
    cases hbank : List.lookup b BANK_CATEGORY_FALLBACK with
    | some v =>
      have hfb : ∀ p ∈ BANK_CATEGORY_FALLBACK, p.2 ∈ BUDGET_CATEGORIES := by decide
      exact hfb _ (lookup_pair_mem hbank)
    | none =>
      have hkw : ∀ d : String, mapCategoryKeywordFallback d ∈ BUDGET_CATEGORIES := by
        intro d
        unfold mapCategoryKeywordFallback
        split_ifs <;> decide
      dsimp only
      split_ifs <;> first | decide | exact hkw _

/-- Witness for the amended C2 at a concrete well-formed override table. -/
theorem resolve_in_budget_categories_witness :
    mapCategory "Qt" "Gas" [(("Qt", "Gas"), "Gas")] ∈ BUDGET_CATEGORIES :=
  resolve_in_budget_categories _ _ _ (by decide)

/-! ## Claim C3: merchant normalizer non-empty fallback (amended) -/

/-- Counterexample to C3 as stated: `clean_merchant_name` returns the
empty string on the empty input, so its result is not non-empty for every
input and no fallback to the upper-cased input exists. -/
theorem clean_merchant_nonempty_counterexample : cleanMerchantName "" = "" := by
  decide

/-- C3 amended: when no keyword rule matches and the generic stripping
steps yield an empty string, `clean_merchant_name` returns the empty
string itself; there is no fallback to the original upper-cased input. -/
theorem clean_merchant_empty_no_fallback (s : String)
    (hkw : KEYWORD_MAP.find? (fun p => containsSub p.1.data (pyUpper s).data) = none)
    (hstrip : cleanMerchantGeneric (pyUpper s).data = "") :
    cleanMerchantName s = "" := by
  simp only [cleanMerchantName, hkw]
  exact hstrip

/-- Witness for the amended C3: the input `" - "` matches no keyword,
strips to nothing, and comes back empty. -/
theorem clean_merchant_empty_no_fallback_witness :
    KEYWORD_MAP.find? (fun p => containsSub p.1.data (pyUpper " - ").data) = none ∧
    cleanMerchantGeneric (pyUpper " - ").data = "" ∧
    cleanMerchantName " - " = "" :=
  ⟨by decide, by decide, clean_merchant_empty_no_fallback " - " (by decide) (by decide)⟩

/-! ## Claim C4: trailing punctuation stripping (amended) -/

/-- Counterexample to C4 as stated: on an input with no keyword match the
result of `clean_merchant_name` can end in a period — no
trailing-punctuation stripping step exists in the source. -/
theorem clean_merchant_trailing_punct_counterexample :
    KEYWORD_MAP.find? (fun p =>
      containsSub p.1.data (pyUpper "hodori restaurant.").data) = none ∧
    (cleanMerchantName "hodori restaurant.").data.getLast? = some '.' := by
  exact ⟨by decide, by decide⟩

/-- C4 amended: on inputs with no keyword match the result is title-cased
with internal whitespace collapsed, but trailing punctuation (periods,
commas, semicolons) is retained, not stripped. -/
theorem clean_merchant_keeps_trailing_punct :
    cleanMerchantName "hodori restaurant." = "Hodori Restaurant." ∧
    cleanMerchantName "broken rice," = "Broken Rice," ∧
    cleanMerchantName "tasty pot;" = "Tasty Pot;" := by
  exact ⟨by decide, by decide, by decide⟩

/-! ## Claim C5: checking-classifier cascade order -/

/-- C5: transfer keywords dominate, then income keywords, then the sign
of the raw amount (positive is income, non-positive expense); in
particular `classify("TRANSFER DEPOSIT SAVINGS", 500)` is a transfer. -/
theorem classify_checking_cascade (d : String) (a : ℚ) :
    (TRANSFER_KEYWORDS.any (fun kw => strContains (pyUpper d) kw) = true →
      classifyCheckingTransaction d a = "transfer") ∧
    (TRANSFER_KEYWORDS.any (fun kw => strContains (pyUpper d) kw) = false →
      INCOME_KEYWORDS.any (fun kw => strContains (pyUpper d) kw) = true →
      classifyCheckingTransaction d a = "income") ∧
    (TRANSFER_KEYWORDS.any (fun kw => strContains (pyUpper d) kw) = false →
      INCOME_KEYWORDS.any (fun kw => strContains (pyUpper d) kw) = false →
      ((0 < a → classifyCheckingTransaction d a = "income") ∧
       (a ≤ 0 → classifyCheckingTransaction d a = "expense"))) ∧
    classifyCheckingTransaction "TRANSFER DEPOSIT SAVINGS" 500 = "transfer" := by
  refine ⟨?_, ?_, ?_, by decide⟩
  · intro h
    simp [classifyCheckingTransaction, h]
  · intro h1 h2
    simp [classifyCheckingTransaction, h1, h2]
  · intro h1 h2
    constructor
    · intro ha
      simp [classifyCheckingTransaction, h1, h2, ha]
    · intro ha
      simp [classifyCheckingTransaction, h1, h2, not_lt.mpr ha]

/-- Witness for C5: one concrete input per branch of the cascade. -/
theorem classify_checking_cascade_witness :
    classifyCheckingTransaction "ZELLE TO FRIEND" (-50) = "transfer" ∧
    classifyCheckingTransaction "DIRECT DEP ACME" (-1) = "income" ∧
    classifyCheckingTransaction "WALMART PURCHASE" 7 = "income" ∧
    classifyCheckingTransaction "WALMART PURCHASE" (-7) = "expense" :=
  ⟨(classify_checking_cascade _ _).1 (by decide),
   (classify_checking_cascade _ _).2.1 (by decide) (by decide),
   ((classify_checking_cascade _ _).2.2.1 (by decide) (by decide)).1 (by decide),
   ((classify_checking_cascade _ _).2.2.1 (by decide) (by decide)).2 (by decide)⟩

/-! ## Claim C6: consecutive-run correctness -/

/-- The maximal continuing chain has length `contLen`. -/
theorem chainTake_length : ∀ (l : List Nat) (prev : Nat),
    (chainTake prev l).length = contLen prev l := by
  intro l
  induction l with
  | nil => intro prev; rfl
  | cons x t ih =>
    intro prev
    rw [chainTake, contLen]
    by_cases hx : x = prev + 1
    · rw [if_pos hx, if_pos hx, List.length_cons, ih x]
      omega
    · rw [if_neg hx, if_neg hx]
      rfl

/-- The maximal continuing chain is a prefix of the scanned list. -/
theorem chainTake_isPrefixOfList : ∀ (l : List Nat) (prev : Nat),
    chainTake prev l <+: l := by
  intro l
  induction l with
  | nil => intro prev; exact List.nil_prefix
  | cons x t ih =>
    intro prev
    rw [chainTake]
    by_cases hx : x = prev + 1
    · rw [if_pos hx]
      exact List.cons_prefix_cons.mpr ⟨rfl, ih x⟩
    · rw [if_neg hx]
      exact List.nil_prefix

/-- The maximal continuing chain, together with its starting value, is a
consecutive chain. -/
theorem chainTake_chain : ∀ (l : List Nat) (prev : Nat),
    isConsecChainB (prev :: chainTake prev l) = true := by
  intro l
  induction l with
  | nil => intro prev; rfl
  | cons x t ih =>
    intro prev
    rw [chainTake]
    by_cases hx : x = prev + 1
    · rw [if_pos hx]
      have : isConsecChainB (prev :: x :: chainTake x t)
          = ((x == prev + 1) && isConsecChainB (x :: chainTake x t)) := rfl
      rw [this, ih x, beq_iff_eq.mpr hx]
      rfl
    · rw [if_neg hx]
      rfl

/-- A chain continuing from `prev` along a prefix of `t` is no longer
than the maximal continuing chain. -/
theorem chain_front_le : ∀ (r : List Nat) (prev : Nat) (t : List Nat),
    r <+: t → isConsecChainB (prev :: r) = true → r.length ≤ contLen prev t := by
  intro r
  induction r with
  | nil => intro prev t _ _; exact Nat.zero_le _
  | cons y r2 ih =>
    intro prev t hpre hchain
    obtain ⟨u, hu⟩ := hpre
    cases t with
    | nil => simp at hu
    | cons z t2 =>
      have hz : y = z := by
        have := congrArg (fun l => l.head?) hu
        simpa using this
      have hr2 : r2 <+: t2 := by
        refine ⟨u, ?_⟩
        have := congrArg (fun l => l.tail) hu
        simpa using this
      have heq : isConsecChainB (prev :: y :: r2)
          = ((y == prev + 1) && isConsecChainB (y :: r2)) := rfl
      rw [heq, Bool.and_eq_true] at hchain
      obtain ⟨hy1, hy2⟩ := hchain
      have hy1eq : y = prev + 1 := beq_iff_eq.mp hy1
      subst hz
      rw [contLen, if_pos hy1eq]
      have := ih y t2 hr2 hy2
      simp only [List.length_cons]
      omega

/-- The longest-run value is attained by some contiguous chain. -/
theorem bestRun_achieved : ∀ l : List Nat,
    ∃ r, r ∈ l.tails.flatMap List.inits ∧ isConsecChainB r = true ∧
      r.length = bestRun l := by
  intro l
  induction l with
  | nil =>
    refine ⟨[], ?_, rfl, rfl⟩
    simp
  | cons x t ih =>
    by_cases hc : 1 + contLen x t ≤ bestRun t
    · obtain ⟨r, hmem, hchain, hlen⟩ := ih
      refine ⟨r, ?_, hchain, ?_⟩
      · rw [List.mem_flatMap] at hmem ⊢
        obtain ⟨s, hs, hr⟩ := hmem
        exact ⟨s, by rw [List.tails_cons]; exact List.mem_cons_of_mem _ hs, hr⟩
      · rw [bestRun, hlen]
        omega
    · refine ⟨x :: chainTake x t, ?_, chainTake_chain t x, ?_⟩
      · rw [List.mem_flatMap]
        refine ⟨x :: t, by rw [List.tails_cons]; exact List.mem_cons_self _ _, ?_⟩
        rw [List.mem_inits]
        exact List.cons_prefix_cons.mpr ⟨rfl, chainTake_isPrefixOfList t x⟩
      · rw [List.length_cons, chainTake_length, bestRun]
        omega

/-- Every contiguous chain is bounded by the longest-run value. -/
theorem bestRun_bound : ∀ (l r : List Nat),
    r ∈ l.tails.flatMap List.inits → isConsecChainB r = true →
    r.length ≤ bestRun l := by
  intro l
  induction l with
  | nil =>
    intro r hmem _
    simp at hmem
    simp [hmem]
  | cons x t ih =>
    intro r hmem hchain
    rw [List.mem_flatMap] at hmem
    obtain ⟨s, hs, hr⟩ := hmem
    rw [List.mem_tails] at hs
    rcases List.suffix_cons_iff.mp hs with hxt | hsuf
    · subst hxt
      rw [List.mem_inits] at hr
      rcases List.prefix_cons_iff.mp hr with hnil | ⟨r2, hr2eq, hr2⟩
      · subst hnil
        exact Nat.zero_le _
      · subst hr2eq
        have hy : isConsecChainB (x :: r2) = true := hchain
        have hb : r2.length ≤ contLen x t := by
          cases r2 with
          | nil => exact Nat.zero_le _
          | cons w r3 => exact chain_front_le (w :: r3) x t hr2 hy
        rw [bestRun, List.length_cons]
        omega
    · have : r.length ≤ bestRun t := by
        refine ih r ?_ hchain
        rw [List.mem_flatMap]
        exact ⟨s, (List.mem_tails _ _).mpr hsuf, hr⟩
      rw [bestRun]
      omega

/-- Folding max over lengths stays below a common upper bound. -/
theorem foldr_max_le (xs : List (List Nat)) (n : Nat)
    (h : ∀ r ∈ xs, r.length ≤ n) :
    xs.foldr (fun r acc => max r.length acc) 0 ≤ n := by
  induction xs with
  | nil => exact Nat.zero_le _
  | cons r t ih =>
    have h1 := h r (List.mem_cons_self _ _)
    have h2 := ih (fun q hq => h q (List.mem_cons_of_mem _ hq))
    simp only [List.foldr_cons]
    omega

/-- Each member length is below the folded max. -/
theorem le_foldr_max (xs : List (List Nat)) (r : List Nat) (h : r ∈ xs) :
    r.length ≤ xs.foldr (fun r acc => max r.length acc) 0 := by
  induction xs with
  | nil => cases h
  | cons q t ih =>
    rcases List.mem_cons.mp h with rfl | hmem
    · simp only [List.foldr_cons]
      omega
    · have := ih hmem
      simp only [List.foldr_cons]
      omega

/-- Invariant of the scan of `_get_longest_consecutive_run`. -/
theorem runLoop_eq : ∀ (rest : List Nat) (prev maxR curR : Nat),
    1 ≤ maxR → curR ≤ maxR →
    runLoop prev maxR curR rest
      = max maxR (max (curR + contLen prev rest) (bestRun rest)) := by
  intro rest
  induction rest with
  | nil =>
    intro prev maxR curR _ h2
    rw [runLoop, contLen, bestRun]
    omega
  | cons x t ih =>
    intro prev maxR curR h1 h2
    by_cases hx : x = prev + 1
    · rw [runLoop, if_pos hx,
        ih x (max maxR (curR + 1)) (curR + 1) (by omega) (Nat.le_max_right _ _),
        contLen, if_pos hx, bestRun]
      omega
    · rw [runLoop, if_neg hx, ih x maxR 1 h1 h1, contLen, if_neg hx, bestRun]
      omega

/-- The source function computes the longest-run value. -/
theorem getLongest_eq_bestRun (l : List Nat) :
    getLongestConsecutiveRun l = bestRun l := by
  cases l with
  | nil => rfl
  | cons x t =>
    rw [getLongestConsecutiveRun, runLoop_eq t x 1 1 (le_refl 1) (le_refl 1), bestRun]
    omega

/-- The longest-run value equals the specification maximum over all
contiguous chains. -/
theorem bestRun_eq_spec (l : List Nat) : longestConsecRunSpec l = bestRun l := by
  apply le_antisymm
  · unfold longestConsecRunSpec
    apply foldr_max_le
    intro r hr
    rw [List.mem_filter] at hr
    exact bestRun_bound l r hr.1 hr.2
  · obtain ⟨r, hmem, hchain, hlen⟩ := bestRun_achieved l
    calc bestRun l = r.length := hlen.symm
      _ ≤ _ := le_foldr_max _ _ (List.mem_filter.mpr ⟨hmem, hchain⟩)

/-- C6: `_get_longest_consecutive_run` returns the length of the longest
contiguous run in which each value exceeds its predecessor by exactly 1
(for every list, hence for every sorted list of distinct month numbers),
and the five concrete examples of the claim hold. -/
theorem longest_consecutive_run_correct (l : List Nat) :
    getLongestConsecutiveRun l = longestConsecRunSpec l ∧
    getLongestConsecutiveRun [1, 2, 3, 4, 5] = 5 ∧
    getLongestConsecutiveRun [1, 2, 4, 5, 6] = 3 ∧
    getLongestConsecutiveRun [7] = 1 ∧
    getLongestConsecutiveRun ([] : List Nat) = 0 ∧
    getLongestConsecutiveRun [1, 3, 5, 7] = 1 :=
  ⟨(getLongest_eq_bestRun l).trans (bestRun_eq_spec l).symm,
   by decide, by decide, by decide, rfl, by decide⟩

/-! ## Claim C7: frequency-filter parameterization (code bug) -/

/-- C7 (code bug): `detect_recurring_merchants` has no
`max_monthly_frequency` parameter — the per-month frequency cap is the
hard-coded constant `2.0` of `recurring.py` line 72. Its own test
`test_max_monthly_frequency_param` calls
`detect_recurring_merchants(df, max_monthly_frequency=10.0)` and expects
the 5-visits-per-month merchant to be included; on the code that call is
a `TypeError`, and for every value of the two parameters the function
does accept, the merchant is excluded. -/
theorem frequency_cap_hardcoded_excludes (tol : ℚ) (minConsec : Nat) :
    detectRecurringMerchants freqShopDf tol minConsec = [] := by
  have hm : sortLe (fun a b => decide (a ≤ b)) ((freqShopDf.map (fun t => t.desc)).dedup)
      = ["Frequent Shop"] := by decide
  have hrec : recurringRecordFor freqShopDf tol minConsec "Frequent Shop" = none := by
    have hmonths : merchantMonths freqShopDf "Frequent Shop" = [1, 2, 3] := by decide
    have hcounts : monthlyTxCounts freqShopDf "Frequent Shop" = [5, 5, 5] := by decide
    simp only [recurringRecordFor, hmonths, hcounts]
    split_ifs with h1 h2 h3 h4 <;> try rfl
    exact absurd (by norm_num [List.sum_cons, List.sum_nil]) h4
  unfold detectRecurringMerchants
  rw [hm]
  simp [List.filterMap_cons, hrec]

/-! ## Claim C8: change-detection window -/

/-- C8: fewer than 3 distinct active months yield no alerts; from 3
months on, the sorted distinct months are split at the floor-division
midpoint and the two recurring sets (earlier and recent halves, with the
default minimum of 2 consecutive months) are compared. -/
theorem change_detection_window (df : List Tx) (tol : ℚ) :
    ((distinctMonths df).length < 3 → detectSubscriptionChanges df tol = []) ∧
    (3 ≤ (distinctMonths df).length →
      detectSubscriptionChanges df tol =
        buildAlerts
          (detectRecurringMerchants (df.filter (fun t =>
            ((distinctMonths df).take ((distinctMonths df).length / 2)).contains t.month))
            tol 2)
          (detectRecurringMerchants (df.filter (fun t =>
            ((distinctMonths df).drop ((distinctMonths df).length / 2)).contains t.month))
            tol 2)
          tol) := by
  constructor
  · intro h
    unfold detectSubscriptionChanges
    dsimp only
    split_ifs with he
    · rfl
    · rfl
  · intro h
    unfold detectSubscriptionChanges
    dsimp only
    split_ifs with he hlt
    · exfalso
      rw [List.isEmpty_iff] at he
      subst he
      simp [distinctMonths, sortLe] at h
    · exfalso
      omega
    · rfl

/-- Witness for C8: a two-month input yields no alerts; a three-month
input takes the split-and-compare branch. -/
theorem change_detection_window_witness :
    detectSubscriptionChanges twoMonthDf 2 = [] ∧
    detectSubscriptionChanges threeMonthDf 2 =
      buildAlerts
        (detectRecurringMerchants (threeMonthDf.filter (fun t =>
          ((distinctMonths threeMonthDf).take
            ((distinctMonths threeMonthDf).length / 2)).contains t.month)) 2 2)
        (detectRecurringMerchants (threeMonthDf.filter (fun t =>
          ((distinctMonths threeMonthDf).drop
            ((distinctMonths threeMonthDf).length / 2)).contains t.month)) 2 2)
        2 :=
  ⟨(change_detection_window twoMonthDf 2).1 (by decide),
   (change_detection_window threeMonthDf 2).2 (by decide)⟩

/-! ## Claim C9: distinct transaction identities -/

/-- Digit characters of decimal digits are never a colon. -/
theorem digitChar_ne_colon : ∀ d : Nat, d < 10 → Nat.digitChar d ≠ ':' := by decide

/-- The decimal rendering of a natural number contains no colon. -/
theorem natToString_no_colon (n : Nat) : ':' ∉ (natToString n).data := by
  unfold natToString
  split_ifs with h
  · decide
  · intro hmem
    have hmem2 : ':' ∈ ((Nat.digits 10 n).map Nat.digitChar).reverse := hmem
    rw [List.mem_reverse] at hmem2
    obtain ⟨d, hd, hdc⟩ := List.mem_map.mp hmem2
    exact digitChar_ne_colon d (Nat.digits_lt_base (by norm_num) hd) hdc

/-- Function `digitChar` is injective on decimal digits. -/
theorem digitChar_inj_lt : ∀ a < 10, ∀ b < 10,
    Nat.digitChar a = Nat.digitChar b → a = b := by decide

/-- Mapping `digitChar` over digit lists is injective. -/
theorem map_digitChar_inj : ∀ l1 l2 : List Nat,
    (∀ d ∈ l1, d < 10) → (∀ d ∈ l2, d < 10) →
    l1.map Nat.digitChar = l2.map Nat.digitChar → l1 = l2 := by
  intro l1
  induction l1 with
  | nil =>
    intro l2 _ _ h
    cases l2 with
    | nil => rfl
    | cons b t => simp at h
  | cons a t ih =>
    intro l2 h1 h2 h
    cases l2 with
    | nil => simp at h
    | cons b t2 =>
      simp only [List.map_cons, List.cons.injEq] at h
      have hab : a = b := digitChar_inj_lt a (h1 a (by simp)) b (h2 b (by simp)) h.1
      rw [hab, ih t2 (fun d hd => h1 d (by simp [hd])) (fun d hd => h2 d (by simp [hd])) h.2]

/-- A number whose decimal digit list is `[0]` is zero. -/
theorem digits_single_zero (n : Nat) (h : Nat.digits 10 n = [0]) : n = 0 := by
  have hof := Nat.ofDigits_digits 10 n
  rw [h, Nat.ofDigits_cons, Nat.ofDigits_nil] at hof
  omega

/-- Helper for `natToString_inj`: a nonzero number never renders as "0". -/
theorem natToString_ne_zero_render (n : Nat) (hn : n ≠ 0) :
    (("0" : String)).data ≠ (((Nat.digits 10 n).map Nat.digitChar).reverse) := by
  intro hdata
  have hlen := congrArg List.length hdata
  simp only [List.length_reverse, List.length_map] at hlen
  obtain ⟨d, hd⟩ : ∃ d, Nat.digits 10 n = [d] := by
    cases hh : Nat.digits 10 n with
    | nil => rw [hh] at hlen; simp at hlen
    | cons d t =>
      rw [hh] at hlen
      cases t with
      | nil => exact ⟨d, rfl⟩
      | cons e t2 => simp at hlen
  rw [hd] at hdata
  have hchar : '0' = Nat.digitChar d := by
    have := hdata
    simpa using this
  have hd10 : d < 10 := Nat.digits_lt_base (by norm_num) (by rw [hd]; simp)
  have hd0 : d = 0 := by
    have : ∀ e : Nat, e < 10 → Nat.digitChar e = '0' → e = 0 := by decide
    exact this d hd10 hchar.symm
  exact hn (digits_single_zero n (hd0 ▸ hd))

/-- The decimal rendering is injective. -/
theorem natToString_inj (m n : Nat) (h : natToString m = natToString n) : m = n := by
  unfold natToString at h
  split_ifs at h with hm hn
  · rw [hm, hn]
  · exact absurd (congrArg String.data h) (natToString_ne_zero_render n hn)
  · exact absurd (congrArg String.data h).symm (natToString_ne_zero_render m hm)
  · have hdata : ((Nat.digits 10 m).map Nat.digitChar).reverse
        = ((Nat.digits 10 n).map Nat.digitChar).reverse := congrArg String.data h
    have hmap := List.reverse_injective hdata
    have hdig := map_digitChar_inj _ _
      (fun d hd => Nat.digits_lt_base (by norm_num) hd)
      (fun d hd => Nat.digits_lt_base (by norm_num) hd) hmap
    calc m = Nat.ofDigits 10 (Nat.digits 10 m) := (Nat.ofDigits_digits 10 m).symm
      _ = Nat.ofDigits 10 (Nat.digits 10 n) := by rw [hdig]
      _ = n := Nat.ofDigits_digits 10 n

/-- Splitting a character list at a colon that no part of the two tails
contains: scanning from the left. -/
theorem first_colon_eq : ∀ p1 : List Char, ':' ∉ p1 →
    ∀ p2 s1 s2 : List Char, ':' ∉ p2 →
    p1 ++ ':' :: s1 = p2 ++ ':' :: s2 → p1 = p2 ∧ s1 = s2 := by
  intro p1
  induction p1 with
  | nil =>
    intro _ p2 s1 s2 hp2 h
    cases p2 with
    | nil =>
      simp only [List.nil_append] at h
      injection h with _ h2
      exact ⟨rfl, h2⟩
    | cons c p2t =>
      exfalso
      simp only [List.nil_append, List.cons_append] at h
      injection h with h1 _
      apply hp2
      rw [← h1]
      exact List.mem_cons_self _ _
  | cons c p1t ih =>
    intro hp1 p2 s1 s2 hp2 h
    cases p2 with
    | nil =>
      exfalso
      simp only [List.nil_append, List.cons_append] at h
      injection h with h1 _
      apply hp1
      rw [h1]
      exact List.mem_cons_self _ _
    | cons c2 p2t =>
      simp only [List.cons_append] at h
      injection h with h1 h2
      obtain ⟨ha, hb⟩ := ih (fun hm => hp1 (List.mem_cons_of_mem _ hm)) p2t s1 s2
        (fun hm => hp2 (List.mem_cons_of_mem _ hm)) h2
      exact ⟨by rw [h1, ha], hb⟩

/-- Splitting a character list at its last colon: the parts after the
colon are colon-free, so both decompositions agree. -/
theorem last_colon_eq (a1 b1 a2 b2 : List Char) (h1 : ':' ∉ b1) (h2 : ':' ∉ b2)
    (h : a1 ++ ':' :: b1 = a2 ++ ':' :: b2) : a1 = a2 ∧ b1 = b2 := by
  have hr := congrArg List.reverse h
  simp only [List.reverse_append, List.reverse_cons, List.append_assoc,
    List.singleton_append] at hr
  obtain ⟨hx, hy⟩ := first_colon_eq b1.reverse (by simpa using h1) b2.reverse
    a1.reverse a2.reverse (by simpa using h2) hr
  exact ⟨List.reverse_injective hy, List.reverse_injective hx⟩

/-- Decoding a full transaction key: the base key and the occurrence
index are both determined, because the occurrence rendering is
colon-free. -/
theorem key_decode (b1 b2 : String) (n1 n2 : Nat)
    (h : b1 ++ "::" ++ natToString n1 = b2 ++ "::" ++ natToString n2) :
    b1 = b2 ∧ n1 = n2 := by
  have hd := congrArg String.data h
  simp only [String.data_append] at hd
  have hd2 : (b1.data ++ [':']) ++ ':' :: (natToString n1).data
      = (b2.data ++ [':']) ++ ':' :: (natToString n2).data := by
    simpa [List.append_assoc] using hd
  obtain ⟨hx, hy⟩ := last_colon_eq _ _ _ _ (natToString_no_colon n1)
    (natToString_no_colon n2) hd2
  refine ⟨String.ext ?_, natToString_inj _ _ (String.ext hy)⟩
  have := congrArg List.dropLast hx
  simpa [List.dropLast_concat] using this

/-- An occurrence count never decreases when rows are appended to the
already-seen list. -/
theorem occCount_append_le (seen extra : List NoteRow) (r : NoteRow) :
    occCount seen r ≤ occCount (seen ++ extra) r := by
  unfold occCount
  rw [List.filter_append, List.length_append]
  omega

/-- Appending one row with the same base key increments the count. -/
theorem occCount_append_same (seen : List NoteRow) (r r2 : NoteRow)
    (hk : genTxKey r2 = genTxKey r) :
    occCount (seen ++ [r2]) r = occCount seen r + 1 := by
  unfold occCount
  rw [List.filter_append, List.length_append]
  simp [List.filter_cons, hk]

/-- The occurrence count depends on the row only through its base key. -/
theorem occCount_key_eq (seen : List NoteRow) (r r2 : NoteRow)
    (hk : genTxKey r2 = genTxKey r) :
    occCount seen r2 = occCount seen r := by
  unfold occCount
  simp only [hk]

/-- Every key produced later in the scan carries an occurrence index at
least as large as the current count of its base key. -/
theorem addTxKeysAux_mem : ∀ (rest seen : List NoteRow) (k : String),
    k ∈ addTxKeysAux seen rest →
    ∃ r n, k = genTxKey r ++ "::" ++ natToString n ∧ occCount seen r ≤ n := by
  intro rest
  induction rest with
  | nil => intro seen k h; cases h
  | cons r rest ih =>
    intro seen k h
    rw [addTxKeysAux] at h
    rcases List.mem_cons.mp h with rfl | hmem
    · exact ⟨r, occCount seen r, rfl, le_refl _⟩
    · obtain ⟨r2, n, hk, hocc⟩ := ih (seen ++ [r]) k hmem
      exact ⟨r2, n, hk, le_trans (occCount_append_le seen [r] r2) hocc⟩

/-- The scan never emits a key twice. -/
theorem addTxKeysAux_nodup : ∀ rest seen : List NoteRow,
    (addTxKeysAux seen rest).Nodup := by
  intro rest
  induction rest with
  | nil => intro seen; exact List.nodup_nil
  | cons r rest ih =>
    intro seen
    rw [addTxKeysAux]
    refine List.nodup_cons.mpr ⟨?_, ih (seen ++ [r])⟩
    intro hmem
    obtain ⟨r2, n, hk, hocc⟩ := addTxKeysAux_mem rest (seen ++ [r]) _ hmem
    obtain ⟨hbase, hn⟩ := key_decode (genTxKey r) (genTxKey r2) (occCount seen r) n hk
    have h1 : occCount (seen ++ [r]) r2 = occCount seen r2 + 1 :=
      occCount_append_same seen r2 r hbase
    have h2 : occCount seen r2 = occCount seen r :=
      occCount_key_eq seen r r2 hbase.symm
    omega

/-- C9: `add_tx_keys` assigns each row a key built from its (date,
canonical merchant, signed amount) base key plus the occurrence index
among earlier rows with the same base key, and all rows — including exact
duplicates — receive pairwise-distinct keys. -/
theorem tx_keys_pairwise_distinct (rows : List NoteRow) : (addTxKeys rows).Nodup :=
  addTxKeysAux_nodup rows []

/-! ## Claim C10: three-month windows produce only new-subscription alerts -/

/-- Inserting preserves length. -/
theorem insertLe_length {α : Type} (le : α → α → Bool) (x : α) :
    ∀ l : List α, (insertLe le x l).length = l.length + 1 := by
  intro l
  induction l with
  | nil => rfl
  | cons y t ih =>
    rw [insertLe]
    by_cases h : le x y
    · rw [if_pos h]
      simp
    · rw [if_neg h]
      simp [ih]

/-- Sorting preserves length. -/
theorem sortLe_length {α : Type} (le : α → α → Bool) :
    ∀ l : List α, (sortLe le l).length = l.length := by
  intro l
  induction l with
  | nil => rfl
  | cons x t ih => simp [sortLe, insertLe_length, ih]

/-- The deduplication of a constant list has at most one element. -/
theorem dedup_len_le_one {α : Type} [DecidableEq α] (m0 : α) :
    ∀ l : List α, (∀ x ∈ l, x = m0) → l.dedup.length ≤ 1 := by
  intro l
  induction l with
  | nil => intro _; simp
  | cons x t ih =>
    intro h
    cases t with
    | nil => simp
    | cons y t2 =>
      have hx : x = m0 := h x (List.mem_cons_self _ _)
      have hy : y = m0 := h y (by simp)
      have hmem : x ∈ y :: t2 := by
        rw [hx, hy]
        exact List.mem_cons_self _ _
      rw [List.dedup_cons_of_mem hmem]
      exact ih (fun z hz => h z (List.mem_cons_of_mem _ hz))

/-- A transaction set confined to a single calendar month has no
recurring merchants when at least 2 consecutive months are required. -/
theorem detectRecurring_single_month (df : List Tx) (tol : ℚ) (minConsec : Nat)
    (hmc : 2 ≤ minConsec) (m0 : Nat) (hall : ∀ t ∈ df, t.month = m0) :
    detectRecurringMerchants df tol minConsec = [] := by
  unfold detectRecurringMerchants
  rw [List.filterMap_eq_nil_iff]
  intro m _
  have hlen : (merchantMonths df m).length ≤ 1 := by
    unfold merchantMonths
    rw [sortLe_length]
    apply dedup_len_le_one m0
    intro x hx
    obtain ⟨t, ht, rfl⟩ := List.mem_map.mp hx
    have ht2 : t ∈ df := by
      unfold merchantRows at ht
      exact (List.mem_filter.mp ht).1
    exact hall t ht2
  unfold recurringRecordFor
  dsimp only
  rw [if_pos (by omega)]

/-- With an empty earlier recurring set, every alert is a new-subscription
alert. -/
theorem buildAlerts_nil_earlier (recent : List RecRecord) (tol : ℚ) :
    ∀ a ∈ buildAlerts [] recent tol, a.type = "new" := by
  intro a ha
  unfold buildAlerts at ha
  simp only [List.map_nil, List.filter_nil, List.filterMap_nil, List.append_nil] at ha
  obtain ⟨r, _, rfl⟩ := List.mem_map.mp ha
  rfl

/-- C10: with exactly 3 distinct active months the earlier half of the
window is a single month, its recurring set is empty (2 consecutive
months are required), and so `detect_subscription_changes` can emit only
alerts of type `new` — never `cancelled`, `price_increase` or
`price_decrease`. -/
theorem three_month_window_only_new_alerts (df : List Tx) (tol : ℚ)
    (h3 : (distinctMonths df).length = 3) :
    ∀ a ∈ detectSubscriptionChanges df tol, a.type = "new" := by
  intro a ha
  unfold detectSubscriptionChanges at ha
  dsimp only at ha
  split_ifs at ha with he hlt
  · exact absurd ha (List.not_mem_nil a)
  · exact absurd ha (List.not_mem_nil a)
  · obtain ⟨m1, rest, hcons⟩ : ∃ m1 rest, distinctMonths df = m1 :: rest := by
      cases hdm : distinctMonths df with
      | nil => rw [hdm] at h3; simp at h3
      | cons x y => exact ⟨x, y, rfl⟩
    have htake : (distinctMonths df).take ((distinctMonths df).length / 2) = [m1] := by
      rw [h3, hcons]
      rfl
    have hall : ∀ t ∈ df.filter (fun t =>
        ((distinctMonths df).take ((distinctMonths df).length / 2)).contains t.month),
        t.month = m1 := by
      intro t ht
      have h2 := (List.mem_filter.mp ht).2
      rw [htake] at h2
      simpa using h2
    have hempty := detectRecurring_single_month _ tol 2 (le_refl 2) m1 hall
    rw [hempty] at ha
    exact buildAlerts_nil_earlier _ tol a ha

/-- Witness for C10 at the concrete three-month dataset. -/
theorem three_month_window_only_new_alerts_witness :
    (detectSubscriptionChanges threeMonthDf 2).all (fun a => a.type == "new") = true := by
  rw [List.all_eq_true]
  intro a ha
  exact beq_iff_eq.mpr (three_month_window_only_new_alerts threeMonthDf 2 (by decide) a ha)

end BudgetCalc
